import Mathlib

/-!
Verification development for the field-extraction engine of `src/app.py`
(invoice/contract document processor).

The Python source locates fields with `re` regular expressions.  We embed the
relevant fragment of Python's `re` as a deep-embedded regex syntax `RE`
together with a backtracking matcher `runs` that enumerates every way a regex
can match at a position, in Python's backtracking order (ordered alternation,
greedy `*`/`+`/`?`, lazy `+?`).  `re.search` is leftmost-first: the first
starting position with a match wins, and at that position the first result in
backtracking order wins; `reSearch` below mirrors that, and `finditerList`
mirrors `re.finditer` (non-overlapping, resuming at each match's end).

Strings are modelled as `List Char` (Python `str.split`, `.strip`, `.join`,
`int(...)` get direct models `splitNl`, `pyStrip`, `joinSep`, `pyInt`).  The
spaCy entity tagger is an external collaborator; its list of DATE entities is
passed to `extract_invoice_data` as the `dates` argument.
-/

/-- Python whitespace (`\s` over the ASCII range, and the set stripped by
`str.strip()`). -/
def wsChar (c : Char) : Bool :=
  c == ' ' || c == '\t' || c == '\n' || c == '\r' || c == '\x0b' || c == '\x0c'

/-- The three currency symbols recognised by the source, `[\$\£\€]`. -/
def isCur (c : Char) : Bool :=
  c == '$' || c == '£' || c == '€'

/-- Python `s.strip()`: drop leading whitespace. -/
def dropLead (l : List Char) : List Char := l.dropWhile wsChar

/-- Python `s.strip()`: drop trailing whitespace. -/
def dropEnd (l : List Char) : List Char := (l.reverse.dropWhile wsChar).reverse

/-- Python `s.strip()`. -/
def pyStrip (l : List Char) : List Char := dropEnd (dropLead l)

/-- Python `s.split('\n')[0]`: everything before the first newline. -/
def lineHead (l : List Char) : List Char := l.takeWhile (fun c => !(c == '\n'))

/-- Python `s.split('\n')` (always at least one piece). -/
def splitNl : List Char → List (List Char)
  | [] => [[]]
  | c :: rest =>
    let r := splitNl rest
    if c == '\n' then [] :: r
    else
      match r with
      | [] => [[c]]
      | h :: t => (c :: h) :: t

/-- Python `sep.join(parts)`. -/
def joinSep (sep : List Char) : List (List Char) → List Char
  | [] => []
  | [x] => x
  | x :: rest => x ++ sep ++ joinSep sep rest

/-- Digit-string value, `none` unless the string is a nonempty digit run. -/
def natVal? (l : List Char) : Option Nat :=
  if l.all Char.isDigit && !l.isEmpty then
    some (l.foldl (fun a c => 10 * a + (c.toNat - 48)) 0)
  else none

/-- Python `int(s)` on stripped input: an optional sign followed by digits,
`none` models the `ValueError` raised otherwise. -/
def pyInt (l : List Char) : Option Int :=
  if l.head? = some '+' then (natVal? l.tail).map (fun n => (n : Int))
  else if l.head? = some '-' then (natVal? l.tail).map (fun n => -(n : Int))
  else (natVal? l).map (fun n => (n : Int))

/-- Capture list: entries `(group, start, stop)`, most recent first (a group
matched repeatedly keeps its last value, as in Python). -/
abbrev Caps := List (Nat × Nat × Nat)

/-- The slice `inp[s:e]` denoted by a capture span. -/
def spanSlice (inp : List Char) (s e : Nat) : List Char := (inp.drop s).take (e - s)

/-- Look up the most recent span recorded for a group. -/
def capLookup (caps : Caps) (n : Nat) : Option (Nat × Nat) :=
  match caps with
  | [] => none
  | (m, s, e) :: rest => if m = n then some (s, e) else capLookup rest n

/-- Python `match.group(n)` as a string (empty if the group never matched;
in every pattern below all groups participate in any successful match). -/
def grpSlice (inp : List Char) (caps : Caps) (n : Nat) : List Char :=
  match capLookup caps n with
  | some (s, e) => spanSlice inp s e
  | none => []

/-- The fragment of Python `re` syntax the source uses: character classes,
concatenation, ordered alternation, greedy `?`, numbered groups, greedy `*`,
and lazy `+?`.  Greedy `+` is `seq a (star a)`, bounded repetition is
desugared into optionals. -/
inductive RE : Type where
  | eps : RE
  | cls : (Char → Bool) → RE
  | seq : RE → RE → RE
  | alt : RE → RE → RE
  | opt : RE → RE
  | grp : Nat → RE → RE
  | star : RE → RE
  | plusL : RE → RE

/-- One layer of the backtracking matcher: all `(end, captures)` results of
matching a regex at `pos`, in Python's backtracking preference order.
Iterations of `star`/`plusL` beyond the first layer go through `next`
(instantiated by `runs` with one unit of fuel less); a `star`/`plusL`
iteration must consume at least one character to continue, which is how
Python's engine avoids empty-match loops. -/
def runs1 (inp : List Char) (next : RE → Nat → Caps → List (Nat × Caps)) :
    RE → Nat → Caps → List (Nat × Caps)
  | .eps, pos, caps => [(pos, caps)]
  | .cls p, pos, caps =>
    match inp.get? pos with
    | some c => if p c then [(pos + 1, caps)] else []
    | none => []
  | .seq a b, pos, caps =>
    (runs1 inp next a pos caps).flatMap (fun pc => runs1 inp next b pc.1 pc.2)
  | .alt a b, pos, caps => runs1 inp next a pos caps ++ runs1 inp next b pos caps
  | .opt a, pos, caps => runs1 inp next a pos caps ++ [(pos, caps)]
  | .grp n a, pos, caps =>
    (runs1 inp next a pos caps).map (fun pc => (pc.1, (n, pos, pc.1) :: pc.2))
  | .star a, pos, caps =>
    ((runs1 inp next a pos caps).flatMap
      (fun pc => if pos < pc.1 then next (.star a) pc.1 pc.2 else [])) ++ [(pos, caps)]
  | .plusL a, pos, caps =>
    (runs1 inp next a pos caps).flatMap
      (fun pc => pc :: (if pos < pc.1 then next (.plusL a) pc.1 pc.2 else []))

/-- The backtracking matcher with fuel bounding the nesting of `star`/`plusL`
iterations; fuel `inp.length + 1` is always enough since every iteration
consumes at least one character. -/
def runs (inp : List Char) : Nat → RE → Nat → Caps → List (Nat × Caps)
  | 0 => runs1 inp (fun _ _ _ => [])
  | fuel + 1 => runs1 inp (runs inp fuel)

/-- Scan of `re.search`: try each start position in turn, earliest match wins;
returns `(start, end, captures)` of Python's chosen match. -/
def searchAux (inp : List Char) (r : RE) : Nat → Nat → Option (Nat × Nat × Caps)
  | 0, _ => none
  | fuel + 1, pos =>
    match (runs inp (inp.length + 1) r pos []).head? with
    | some ec => some (pos, ec.1, ec.2)
    | none => searchAux inp r fuel (pos + 1)

/-- Python `re.search(pattern, inp)`. -/
def reSearch (inp : List Char) (r : RE) : Option (Nat × Nat × Caps) :=
  searchAux inp r (inp.length + 1) 0

/-- Scan of `re.finditer`: collect non-overlapping matches left to right,
resuming at each match's end (one past it for an empty match). -/
def finditerAux (inp : List Char) (r : RE) : Nat → Nat → List (Nat × Nat × Caps)
  | 0, _ => []
  | fuel + 1, pos =>
    match searchAux inp r (inp.length + 1 - pos) pos with
    | some (s, e, cs) => (s, e, cs) :: finditerAux inp r fuel (if s < e then e else s + 1)
    | none => []

/-- Python `re.finditer(pattern, inp)` (match spans and captures). -/
def finditerList (inp : List Char) (r : RE) : List (Nat × Nat × Caps) :=
  finditerAux inp r (inp.length + 2) 0

/-- A single character matched case-insensitively (`re.IGNORECASE` on an
ASCII literal). -/
def ciCls (c : Char) : RE := .cls (fun x => x.toLower == c.toLower)

/-- A literal word under `re.IGNORECASE`. -/
def litCI : List Char → RE
  | [] => .eps
  | c :: rest => .seq (ciCls c) (litCI rest)

/-- Ordered alternation over a list (first alternative preferred; the empty
list matches nothing). -/
def altL : List RE → RE
  | [] => .cls (fun _ => false)
  | r :: rest => .alt r (altL rest)

/-- `(kw1|kw2|...)` over case-insensitive literal keywords. -/
def kwAlts (kws : List (List Char)) : RE := altL (kws.map litCI)

/-- Greedy `+`. -/
def plusG (r : RE) : RE := .seq r (.star r)

/-- `[:\s]*` — the punctuation/whitespace gap between keyword and value. -/
def colonWs : RE := .star (.cls (fun c => c == ':' || wsChar c))

/-- `\s`. -/
def wsCls : RE := .cls wsChar

/-- `\d`. -/
def digCls : RE := .cls Char.isDigit

/-- `\s+`. -/
def wsPlus : RE := plusG wsCls

/-- `\d+`. -/
def digPlus : RE := plusG digCls

/-- `.` with `re.DOTALL` (matches anything, newline included). -/
def anyCh : RE := .cls (fun _ => true)

/-- `.` without `re.DOTALL` (anything but newline). -/
def anyNoNl : RE := .cls (fun c => !(c == '\n'))

/-- `\d{1,2}` (greedy: two digits preferred). -/
def d12 : RE := .seq digCls (.opt digCls)

/-- `\d{1,3}` (greedy, longest first). -/
def d13 : RE := .seq digCls (.opt (.seq digCls (.opt digCls)))

/-- `\d{2,4}` (greedy, longest first). -/
def d24 : RE := .seq digCls (.seq digCls (.opt (.seq digCls (.opt digCls))))

/-- `\d{4}`. -/
def d4 : RE := .seq digCls (.seq digCls (.seq digCls digCls))

/-- `[\/\-\.]` — the date separators. -/
def dateSep : RE := .cls (fun c => c == '/' || c == '-' || c == '.')

/-- `(?:Jan|Feb|Mar|Apr|May|Jun|Jul|Aug|Sep|Oct|Nov|Dec)` under
`re.IGNORECASE`. -/
def monthAlt : RE :=
  kwAlts ["Jan".data, "Feb".data, "Mar".data, "Apr".data, "May".data, "Jun".data,
    "Jul".data, "Aug".data, "Sep".data, "Oct".data, "Nov".data, "Dec".data]

/-- The three date-literal alternatives of app.py line 73:
`\d{1,2}[\/\-\.]\d{1,2}[\/\-\.]\d{2,4}`, `\d{4}[\/\-\.]\d{1,2}[\/\-\.]\d{1,2}`,
and `Month \d{1,2}, \d{4}`. -/
def dateAlts : RE :=
  altL
    [ .seq d12 (.seq dateSep (.seq d12 (.seq dateSep d24)))
    , .seq d4 (.seq dateSep (.seq d12 (.seq dateSep d12)))
    , .seq monthAlt (.seq wsPlus (.seq d12 (.seq (.cls (fun c => c == ','))
        (.seq wsPlus d4)))) ]

/-- app.py line 73: `(invoice date|date)[:\s]*(<date alternatives>)`,
`re.IGNORECASE`. -/
def dateKwRE : RE :=
  .seq (.grp 1 (kwAlts ["invoice date".data, "date".data]))
    (.seq colonWs (.grp 2 dateAlts))

/-- `[A-Z0-9\-\/]` under `re.IGNORECASE` (so letters of either case). -/
def invNumChar (c : Char) : Bool :=
  c.isAlpha || c.isDigit || c == '-' || c == '/'

/-- app.py line 83:
`(invoice number|invoice no|invoice #|inv #|bill no)[:\s]*([A-Z0-9\-\/]+)`. -/
def invNumRE : RE :=
  .seq (.grp 1 (kwAlts ["invoice number".data, "invoice no".data, "invoice #".data,
    "inv #".data, "bill no".data]))
    (.seq colonWs (.grp 2 (plusG (.cls invNumChar))))

/-- app.py line 88: `([\$\£\€])`. -/
def curRE : RE := .grp 1 (.cls isCur)

/-- app.py line 93, the amount pattern body:
`[\$\£\€]?\s*\d{1,3}(?:,\d{3})*(?:\.\d{2})?` (its surrounding capture paren
is added by each use site). -/
def amountCore : RE :=
  .seq (.opt (.cls isCur))
    (.seq (.star wsCls)
      (.seq d13
        (.seq (.star (.seq (.cls (fun c => c == ',')) (.seq digCls (.seq digCls digCls))))
          (.opt (.seq (.cls (fun c => c == '.')) (.seq digCls digCls))))))

/-- app.py line 96: `(subtotal)[:\s]*<amount>`. -/
def subtotalRE : RE :=
  .seq (.grp 1 (kwAlts ["subtotal".data])) (.seq colonWs (.grp 2 amountCore))

/-- app.py line 104: `(tax|vat)[:\s]*<amount>`. -/
def taxRE : RE :=
  .seq (.grp 1 (kwAlts ["tax".data, "vat".data])) (.seq colonWs (.grp 2 amountCore))

/-- app.py line 113: `(total|grand total|amount due)[:\s]*<amount>`. -/
def totalRE : RE :=
  .seq (.grp 1 (kwAlts ["total".data, "grand total".data, "amount due".data]))
    (.seq colonWs (.grp 2 amountCore))

/-- app.py line 126: `(vendor|supplier|from)[:\s]*(.+)` (no DOTALL, so the
value stays on one line). -/
def vendorRE : RE :=
  .seq (.grp 1 (kwAlts ["vendor".data, "supplier".data, "from".data]))
    (.seq colonWs (.grp 2 (plusG anyNoNl)))

/-- app.py line 131: `(customer|client|bill to)[:\s]*(.+)`. -/
def customerRE : RE :=
  .seq (.grp 1 (kwAlts ["customer".data, "client".data, "bill to".data]))
    (.seq colonWs (.grp 2 (plusG anyNoNl)))

/-- The column-header words of app.py line 154, in source order. -/
def headerKeywords : List (List Char) :=
  ["description".data, "item".data, "qty".data, "quantity".data,
   "unit price".data, "price per unit".data, "amount".data, "total".data]

/-- app.py line 154: `(description|item|qty|quantity|unit price|price per unit|amount|total)`. -/
def headerKwRE : RE := .grp 1 (kwAlts headerKeywords)

/-- app.py lines 141-147, the line-item row pattern with
`re.IGNORECASE | re.DOTALL`:
`(.+?)\s+(\d+)\s+<amount>\s+<amount>`. -/
def lineItemRE : RE :=
  .seq (.grp 1 (.plusL anyCh))
    (.seq wsPlus
      (.seq (.grp 2 digPlus)
        (.seq wsPlus
          (.seq (.grp 3 amountCore)
            (.seq wsPlus (.grp 4 amountCore))))))

/-- A parsed line item (app.py lines 162-167).  `quantity` is the result of
`int(...)` on the quantity capture; `none` models the `ValueError` Python
would raise (the theorems below show it never occurs). -/
structure LineItem where
  itemDescription : List Char
  quantity : Option Int
  unitPrice : List Char
  lineItemTotal : List Char
deriving DecidableEq, Repr

/-- Build one line item from a row match (app.py lines 162-167). -/
def buildItem (sec : List Char) (m : Nat × Nat × Caps) : LineItem :=
  ⟨pyStrip (grpSlice sec m.2.2 1),
   pyInt (pyStrip (grpSlice sec m.2.2 2)),
   pyStrip (grpSlice sec m.2.2 3),
   pyStrip (grpSlice sec m.2.2 4)⟩

/-- app.py lines 160-167: all row matches in a candidate section. -/
def lineItemsInSection (sec : List Char) : List LineItem :=
  (finditerList sec lineItemRE).map (buildItem sec)

/-- app.py line 154 applied to one line: does it mention a column-header word? -/
def hasHeaderKw (line : List Char) : Bool := (reSearch line headerKwRE).isSome

/-- Index of the first line containing a header keyword (the loop with
`break` at app.py lines 153-158). -/
def firstHeaderIdx? : List (List Char) → Option Nat
  | [] => none
  | l :: rest => if hasHeaderKw l then some 0 else (firstHeaderIdx? rest).map (· + 1)

/-- The candidate line-item section, `"\n".join(lines[i:])` from the first
header-keyword line (app.py lines 149-158), if any. -/
def sectionOf (text : List Char) : Option (List Char) :=
  (firstHeaderIdx? (splitNl text)).map (fun i => joinSep ['\n'] ((splitNl text).drop i))

/-- app.py lines 149-167: line-item extraction for a whole text. -/
def lineItemsOf (text : List Char) : List LineItem :=
  match sectionOf text with
  | some sec => lineItemsInSection sec
  | none => []

/-- The extracted-record shape built by `extract_invoice_data` (app.py
lines 54-66).  `vendorAddress` and `customerAddress` are declared but never
assigned by the source, so they stay `none`. -/
structure InvoiceData where
  invoiceNumber : Option (List Char)
  invoiceDate : Option (List Char)
  vendorName : Option (List Char)
  vendorAddress : Option (List Char)
  customerName : Option (List Char)
  customerAddress : Option (List Char)
  subtotalAmount : Option (List Char)
  taxAmount : Option (List Char)
  totalAmount : Option (List Char)
  currency : Option (List Char)
  lineItems : List LineItem
deriving DecidableEq, Repr

/-- app.py line 88: global scan for the first currency symbol, capture
group 1. -/
def currencyScan (text : List Char) : Option (List Char) :=
  (reSearch text curRE).map (fun m => grpSlice text m.2.2 1)

/-- app.py lines 99-100 / 107-108 / 116-117: when no currency is known yet,
look for a symbol inside the matched `group(1)` text (the keyword!) and take
the first one found. -/
def backfillCurrency (cur : Option (List Char)) (g1 : List Char) : Option (List Char) :=
  match cur with
  | some c => some c
  | none =>
    match g1.find? isCur with
    | some c => some [c]
    | none => none

/-- app.py lines 49-170, `extract_invoice_data(text)`.  `dates` is the list
of DATE entities reported by the external spaCy tagger for this text
(`[ent.text for ent in doc.ents if ent.label_ == "DATE"]`, line 70). -/
def extract_invoice_data (text : List Char) (dates : List (List Char)) : InvoiceData :=
  -- lines 70-78: the keyword-anchored date search runs only under `if dates:`
  let invoiceDate : Option (List Char) :=
    match dates with
    | [] => none
    | d :: _ =>
      match reSearch text dateKwRE with
      | some m => some (pyStrip (grpSlice text m.2.2 2))
      | none => some d
  -- lines 83-85
  let invoiceNumber := (reSearch text invNumRE).map (fun m => pyStrip (grpSlice text m.2.2 2))
  -- lines 88-90
  let cur0 := currencyScan text
  -- lines 96-100: the source stores group(1) -- the matched keyword -- and
  -- tests group(1) for a currency symbol
  let subM := reSearch text subtotalRE
  let subtotalAmount := subM.map (fun m => pyStrip (grpSlice text m.2.2 1))
  let cur1 := match subM with
    | some m => backfillCurrency cur0 (grpSlice text m.2.2 1)
    | none => cur0
  -- lines 104-108
  let taxM := reSearch text taxRE
  let taxAmount := taxM.map (fun m => pyStrip (grpSlice text m.2.2 1))
  let cur2 := match taxM with
    | some m => backfillCurrency cur1 (grpSlice text m.2.2 1)
    | none => cur1
  -- lines 113-121 (the elif fallback at lines 118-121 is `pass` in the source)
  let totM := reSearch text totalRE
  let totalAmount := totM.map (fun m => pyStrip (grpSlice text m.2.2 1))
  let cur3 := match totM with
    | some m => backfillCurrency cur2 (grpSlice text m.2.2 1)
    | none => cur2
  -- lines 126-134: first line after the keyword, stripped
  let vendorName := (reSearch text vendorRE).map
    (fun m => pyStrip (lineHead (grpSlice text m.2.2 2)))
  let customerName := (reSearch text customerRE).map
    (fun m => pyStrip (lineHead (grpSlice text m.2.2 2)))
  -- lines 141-167
  let items := lineItemsOf text
  ⟨invoiceNumber, invoiceDate, vendorName, none, customerName, none,
   subtotalAmount, taxAmount, totalAmount, cur3, items⟩

/-! ### Fast-evaluation layer

The definitions above are the embedding of the source and are executable.
For concrete inputs the kernel reduces equation-compiled recursion slowly, so
the `...K` twins below restate exactly the same functions through the plain
recursors `Nat.rec` / `RE.rec` (which the compiler cannot execute, hence
`noncomputable`, but which the kernel reduces cheaply).  The theorems
`runs1_eqK` … `extract_invoice_data_eqK` prove the twins pointwise equal to
the definitions above; concrete evaluations rewrite along them. -/

/-- Recursor form of `runs1`. -/
noncomputable def runs1K (inp : List Char) (next : RE → Nat → Caps → List (Nat × Caps))
    (r : RE) : Nat → Caps → List (Nat × Caps) :=
  RE.rec (motive := fun _ => Nat → Caps → List (Nat × Caps))
    (fun pos caps => [(pos, caps)])
    (fun p pos caps =>
      match inp.get? pos with
      | some c => if p c then [(pos + 1, caps)] else []
      | none => [])
    (fun _ _ fa fb pos caps => (fa pos caps).flatMap (fun pc => fb pc.1 pc.2))
    (fun _ _ fa fb pos caps => fa pos caps ++ fb pos caps)
    (fun _ fa pos caps => fa pos caps ++ [(pos, caps)])
    (fun n _ fa pos caps => (fa pos caps).map (fun pc => (pc.1, (n, pos, pc.1) :: pc.2)))
    (fun a fa pos caps =>
      ((fa pos caps).flatMap
        (fun pc => if pos < pc.1 then next (.star a) pc.1 pc.2 else [])) ++ [(pos, caps)])
    (fun a fa pos caps =>
      (fa pos caps).flatMap
        (fun pc => pc :: (if pos < pc.1 then next (.plusL a) pc.1 pc.2 else [])))
    r

/-- Recursor form of `runs`. -/
noncomputable def runsK (inp : List Char) (fuel : Nat) : RE → Nat → Caps → List (Nat × Caps) :=
  Nat.rec (motive := fun _ => RE → Nat → Caps → List (Nat × Caps))
    (runs1K inp (fun _ _ _ => []))
    (fun _ prev => runs1K inp prev)
    fuel

/-- Recursor form of `searchAux`. -/
noncomputable def searchAuxK (inp : List Char) (r : RE) (fuel : Nat) :
    Nat → Option (Nat × Nat × Caps) :=
  Nat.rec (motive := fun _ => Nat → Option (Nat × Nat × Caps))
    (fun _ => none)
    (fun _ prev pos =>
      match (runsK inp (inp.length + 1) r pos []).head? with
      | some ec => some (pos, ec.1, ec.2)
      | none => prev (pos + 1))
    fuel

/-- Recursor form of `reSearch`. -/
noncomputable def reSearchK (inp : List Char) (r : RE) : Option (Nat × Nat × Caps) :=
  searchAuxK inp r (inp.length + 1) 0

/-- Recursor form of `finditerAux`. -/
noncomputable def finditerAuxK (inp : List Char) (r : RE) (fuel : Nat) :
    Nat → List (Nat × Nat × Caps) :=
  Nat.rec (motive := fun _ => Nat → List (Nat × Nat × Caps))
    (fun _ => [])
    (fun _ prev pos =>
      match searchAuxK inp r (inp.length + 1 - pos) pos with
      | some (s, e, cs) => (s, e, cs) :: prev (if s < e then e else s + 1)
      | none => [])
    fuel

/-- Recursor form of `finditerList`. -/
noncomputable def finditerListK (inp : List Char) (r : RE) : List (Nat × Nat × Caps) :=
  finditerAuxK inp r (inp.length + 2) 0

/-- Recursor form of `lineItemsInSection`. -/
noncomputable def lineItemsInSectionK (sec : List Char) : List LineItem :=
  (finditerListK sec lineItemRE).map (buildItem sec)

/-- Recursor form of `hasHeaderKw`. -/
noncomputable def hasHeaderKwK (line : List Char) : Bool := (reSearchK line headerKwRE).isSome

/-- Recursor form of `firstHeaderIdx?`. -/
noncomputable def firstHeaderIdxK : List (List Char) → Option Nat
  | [] => none
  | l :: rest => if hasHeaderKwK l then some 0 else (firstHeaderIdxK rest).map (· + 1)

/-- Recursor form of `sectionOf`. -/
noncomputable def sectionOfK (text : List Char) : Option (List Char) :=
  (firstHeaderIdxK (splitNl text)).map (fun i => joinSep ['\n'] ((splitNl text).drop i))

/-- Recursor form of `lineItemsOf`. -/
noncomputable def lineItemsOfK (text : List Char) : List LineItem :=
  match sectionOfK text with
  | some sec => lineItemsInSectionK sec
  | none => []

/-- Recursor form of `currencyScan`. -/
noncomputable def currencyScanK (text : List Char) : Option (List Char) :=
  (reSearchK text curRE).map (fun m => grpSlice text m.2.2 1)

/-- Recursor form of `extract_invoice_data`. -/
noncomputable def extractK (text : List Char) (dates : List (List Char)) : InvoiceData :=
  let invoiceDate : Option (List Char) :=
    match dates with
    | [] => none
    | d :: _ =>
      match reSearchK text dateKwRE with
      | some m => some (pyStrip (grpSlice text m.2.2 2))
      | none => some d
  let invoiceNumber := (reSearchK text invNumRE).map (fun m => pyStrip (grpSlice text m.2.2 2))
  let cur0 := currencyScanK text
  let subM := reSearchK text subtotalRE
  let subtotalAmount := subM.map (fun m => pyStrip (grpSlice text m.2.2 1))
  let cur1 := match subM with
    | some m => backfillCurrency cur0 (grpSlice text m.2.2 1)
    | none => cur0
  let taxM := reSearchK text taxRE
  let taxAmount := taxM.map (fun m => pyStrip (grpSlice text m.2.2 1))
  let cur2 := match taxM with
    | some m => backfillCurrency cur1 (grpSlice text m.2.2 1)
    | none => cur1
  let totM := reSearchK text totalRE
  let totalAmount := totM.map (fun m => pyStrip (grpSlice text m.2.2 1))
  let cur3 := match totM with
    | some m => backfillCurrency cur2 (grpSlice text m.2.2 1)
    | none => cur2
  let vendorName := (reSearchK text vendorRE).map
    (fun m => pyStrip (lineHead (grpSlice text m.2.2 2)))
  let customerName := (reSearchK text customerRE).map
    (fun m => pyStrip (lineHead (grpSlice text m.2.2 2)))
  let items := lineItemsOfK text
  ⟨invoiceNumber, invoiceDate, vendorName, none, customerName, none,
   subtotalAmount, taxAmount, totalAmount, cur3, items⟩

/-! ### Record structurers (app.py lines 263-343) -/

/-- One flat output row for the invoice sheet (app.py lines 284-318): the ten
header fields plus the four line-item fields.  `quantity` mirrors the
`"Quantity"` cell; it carries the parsed integer of the originating line item
(or `none` in the no-line-item row). -/
structure InvoiceRow where
  invoiceNumber : Option (List Char)
  invoiceDate : Option (List Char)
  vendorName : Option (List Char)
  vendorAddress : Option (List Char)
  customerName : Option (List Char)
  customerAddress : Option (List Char)
  subtotalAmount : Option (List Char)
  taxAmount : Option (List Char)
  totalAmount : Option (List Char)
  currency : Option (List Char)
  lineItemDescription : Option (List Char)
  quantity : Option Int
  unitPrice : Option (List Char)
  lineItemTotal : Option (List Char)
deriving DecidableEq, Repr

/-- app.py lines 263-320, `structure_invoice_data_for_excel`: one row with
null line-item fields when there are no line items, otherwise one row per
line item with the header fields repeated. -/
def structure_invoice_data_for_excel (d : InvoiceData) : List InvoiceRow :=
  if d.lineItems.isEmpty then
    [⟨d.invoiceNumber, d.invoiceDate, d.vendorName, d.vendorAddress,
      d.customerName, d.customerAddress, d.subtotalAmount, d.taxAmount,
      d.totalAmount, d.currency, none, none, none, none⟩]
  else
    d.lineItems.map (fun it =>
      ⟨d.invoiceNumber, d.invoiceDate, d.vendorName, d.vendorAddress,
       d.customerName, d.customerAddress, d.subtotalAmount, d.taxAmount,
       d.totalAmount, d.currency, some it.itemDescription, it.quantity,
       some it.unitPrice, some it.lineItemTotal⟩)

/-- The extracted-record shape built by `extract_contract_data` (app.py
lines 178-193); the `Key Clauses` sub-dictionary is flattened into six
fields. -/
structure ContractData where
  contractTitle : Option (List Char)
  partyNames : List (List Char)
  effectiveDate : Option (List Char)
  expirationDate : Option (List Char)
  governingLaw : Option (List Char)
  paymentTerms : Option (List Char)
  terminationClause : Option (List Char)
  confidentialityClause : Option (List Char)
  intellectualPropertyClause : Option (List Char)
  limitationOfLiabilityClause : Option (List Char)
  disputeResolutionClause : Option (List Char)
deriving DecidableEq, Repr

/-- One flat output row for the contract sheet (app.py lines 328-341);
`partyNames` holds the `", ".join(...)` of the extracted party-name list. -/
structure ContractRow where
  contractTitle : Option (List Char)
  partyNames : List Char
  effectiveDate : Option (List Char)
  expirationDate : Option (List Char)
  governingLaw : Option (List Char)
  paymentTermsClause : Option (List Char)
  terminationClause : Option (List Char)
  confidentialityClause : Option (List Char)
  intellectualPropertyClause : Option (List Char)
  limitationOfLiabilityClause : Option (List Char)
  disputeResolutionClause : Option (List Char)
deriving DecidableEq, Repr

/-- app.py lines 322-343, `structure_contract_data_for_excel`: a single row,
party names joined with `", "`, every other field copied. -/
def structure_contract_data_for_excel (d : ContractData) : List ContractRow :=
  [⟨d.contractTitle, joinSep ", ".data d.partyNames, d.effectiveDate,
    d.expirationDate, d.governingLaw, d.paymentTerms, d.terminationClause,
    d.confidentialityClause, d.intellectualPropertyClause,
    d.limitationOfLiabilityClause, d.disputeResolutionClause⟩]

/-! ### Concrete texts used by the scenario claims -/

/-- Scenario A text: `"Invoice Number: INV-2024-001\nTotal: $1,234.56"`. -/
def scenarioAText : List Char := "Invoice Number: INV-2024-001\nTotal: $1,234.56".data

/-- A text whose only date is reachable by the keyword-anchored search. -/
def dateGateText : List Char := "invoice date: 01/02/2024".data

/-- A text with a syntactically date-shaped but calendrically impossible
value. -/
def badDateText : List Char := "Invoice Date: 13/45/2099".data

/-- A text with a line-item header line and two parseable rows, the second
of which has a whitespace-only description column. -/
def emptyDescText : List Char := "qty\nA 1 2 3  4 5 6".data

/-- A text with a header line and one parseable row. -/
def oneRowText : List Char := "qty\nA 1 2 3".data

/-- A text with vendor and customer lines. -/
def vendorCustomerText : List Char := "Vendor: Acme Corp\nCustomer: Globex".data

/-- A text containing no line-item column-header word. -/
def noHeaderText : List Char := "hello\nworld".data

/-! ### Predicates used to state the universal claims -/

/-- A regex without capture groups (matching it leaves captures unchanged). -/
def NoGrp : RE → Bool
  | .eps => true
  | .cls _ => true
  | .seq a b => NoGrp a && NoGrp b
  | .alt a b => NoGrp a && NoGrp b
  | .opt a => NoGrp a
  | .grp _ _ => false
  | .star a => NoGrp a
  | .plusL a => NoGrp a

/-- Case-insensitive "starts with": `kw` is a prefix of `l` up to ASCII case. -/
def ciStarts : List Char → List Char → Bool
  | [], _ => true
  | _ :: _, [] => false
  | k :: ks, c :: cs => (c.toLower == k.toLower) && ciStarts ks cs

/-- Case-insensitive substring containment. -/
def substrCI (kw l : List Char) : Bool :=
  (List.range (l.length + 1)).any (fun i => ciStarts kw (l.drop i))

/-- `[s, e)` is a span of `inp` matched by the amount pattern
(`[\$\£\€]?\s*\d{1,3}(?:,\d{3})*(?:\.\d{2})?`). -/
def AmountAt (inp : List Char) (s e : Nat) : Prop :=
  ∃ fuel caps cs, (e, cs) ∈ runs inp fuel amountCore s caps

/-! ### Equality of the embedding with its fast-evaluation twins -/

theorem runs1K_eps (inp next pos caps) :
    runs1K inp next .eps pos caps = [(pos, caps)] := rfl

theorem runs1K_cls (inp next p pos caps) :
    runs1K inp next (.cls p) pos caps =
      (match inp.get? pos with
       | some c => if p c then [(pos + 1, caps)] else []
       | none => []) := rfl

theorem runs1K_seq (inp next a b pos caps) :
    runs1K inp next (.seq a b) pos caps =
      (runs1K inp next a pos caps).flatMap (fun pc => runs1K inp next b pc.1 pc.2) := rfl

theorem runs1K_alt (inp next a b pos caps) :
    runs1K inp next (.alt a b) pos caps =
      runs1K inp next a pos caps ++ runs1K inp next b pos caps := rfl

theorem runs1K_opt (inp next a pos caps) :
    runs1K inp next (.opt a) pos caps = runs1K inp next a pos caps ++ [(pos, caps)] := rfl

theorem runs1K_grp (inp next n a pos caps) :
    runs1K inp next (.grp n a) pos caps =
      (runs1K inp next a pos caps).map (fun pc => (pc.1, (n, pos, pc.1) :: pc.2)) := rfl

theorem runs1K_star (inp next a pos caps) :
    runs1K inp next (.star a) pos caps =
      ((runs1K inp next a pos caps).flatMap
        (fun pc => if pos < pc.1 then next (.star a) pc.1 pc.2 else [])) ++ [(pos, caps)] := rfl

theorem runs1K_plusL (inp next a pos caps) :
    runs1K inp next (.plusL a) pos caps =
      (runs1K inp next a pos caps).flatMap
        (fun pc => pc :: (if pos < pc.1 then next (.plusL a) pc.1 pc.2 else [])) := rfl

theorem runs1_eqK (inp next) : ∀ r pos caps,
    runs1 inp next r pos caps = runs1K inp next r pos caps := by
  intro r
  induction r with
  | eps => intro pos caps; rfl
  | cls p => intro pos caps; rfl
  | seq a b iha ihb =>
    intro pos caps
    simp only [runs1, runs1K_seq, iha, ihb]
  | alt a b iha ihb =>
    intro pos caps
    simp only [runs1, runs1K_alt, iha, ihb]
  | opt a iha =>
    intro pos caps
    simp only [runs1, runs1K_opt, iha]
  | grp n a iha =>
    intro pos caps
    simp only [runs1, runs1K_grp, iha]
  | star a iha =>
    intro pos caps
    simp only [runs1, runs1K_star, iha]
  | plusL a iha =>
    intro pos caps
    simp only [runs1, runs1K_plusL, iha]

theorem runs_eqK (inp) : ∀ fuel r pos caps,
    runs inp fuel r pos caps = runsK inp fuel r pos caps := by
  intro fuel
  induction fuel with
  | zero =>
    intro r pos caps
    show runs1 inp (fun _ _ _ => []) r pos caps = runs1K inp (fun _ _ _ => []) r pos caps
    exact runs1_eqK ..
  | succ fuel ih =>
    intro r pos caps
    show runs1 inp (runs inp fuel) r pos caps = runs1K inp (runsK inp fuel) r pos caps
    have hnext : runs inp fuel = runsK inp fuel := by
      funext r pos caps; exact ih r pos caps
    rw [runs1_eqK, hnext]

theorem searchAuxK_zero (inp r pos) : searchAuxK inp r 0 pos = none := rfl

theorem searchAuxK_succ (inp r fuel pos) :
    searchAuxK inp r (fuel + 1) pos =
      (match (runsK inp (inp.length + 1) r pos []).head? with
       | some ec => some (pos, ec.1, ec.2)
       | none => searchAuxK inp r fuel (pos + 1)) := rfl

theorem searchAux_eqK (inp r) : ∀ fuel pos,
    searchAux inp r fuel pos = searchAuxK inp r fuel pos := by
  intro fuel
  induction fuel with
  | zero => intro pos; rfl
  | succ fuel ih =>
    intro pos
    rw [searchAux, searchAuxK_succ, runs_eqK]
    cases (runsK inp (inp.length + 1) r pos []).head? with
    | none => simpa using ih (pos + 1)
    | some ec => simp

theorem reSearch_eqK (inp r) : reSearch inp r = reSearchK inp r := by
  rw [reSearch, reSearchK, searchAux_eqK]

theorem finditerAuxK_zero (inp r pos) : finditerAuxK inp r 0 pos = [] := rfl

theorem finditerAuxK_succ (inp r fuel pos) :
    finditerAuxK inp r (fuel + 1) pos =
      (match searchAuxK inp r (inp.length + 1 - pos) pos with
       | some (s, e, cs) =>
         (s, e, cs) :: finditerAuxK inp r fuel (if s < e then e else s + 1)
       | none => []) := rfl

theorem finditerAux_eqK (inp r) : ∀ fuel pos,
    finditerAux inp r fuel pos = finditerAuxK inp r fuel pos := by
  intro fuel
  induction fuel with
  | zero => intro pos; rfl
  | succ fuel ih =>
    intro pos
    rw [finditerAux, finditerAuxK_succ, searchAux_eqK]
    cases searchAuxK inp r (inp.length + 1 - pos) pos with
    | none => simp
    | some m => simp [ih]

theorem finditerList_eqK (inp r) : finditerList inp r = finditerListK inp r := by
  rw [finditerList, finditerListK, finditerAux_eqK]

theorem lineItemsInSection_eqK (sec) : lineItemsInSection sec = lineItemsInSectionK sec := by
  rw [lineItemsInSection, lineItemsInSectionK, finditerList_eqK]

theorem hasHeaderKw_eqK (line) : hasHeaderKw line = hasHeaderKwK line := by
  rw [hasHeaderKw, hasHeaderKwK, reSearch_eqK]

theorem firstHeaderIdx_eqK : ∀ lines, firstHeaderIdx? lines = firstHeaderIdxK lines := by
  intro lines
  induction lines with
  | nil => rfl
  | cons l rest ih => rw [firstHeaderIdx?, firstHeaderIdxK, hasHeaderKw_eqK, ih]

theorem sectionOf_eqK (text) : sectionOf text = sectionOfK text := by
  rw [sectionOf, sectionOfK, firstHeaderIdx_eqK]

theorem lineItemsOf_eqK (text) : lineItemsOf text = lineItemsOfK text := by
  rw [lineItemsOf, lineItemsOfK, sectionOf_eqK]
  cases sectionOfK text with
  | none => rfl
  | some sec => simp [lineItemsInSection_eqK]

theorem currencyScan_eqK (text) : currencyScan text = currencyScanK text := by
  rw [currencyScan, currencyScanK, reSearch_eqK]

theorem extract_invoice_data_eqK (text dates) :
    extract_invoice_data text dates = extractK text dates := by
  rw [extract_invoice_data.eq_def, extractK.eq_def]
  simp only [reSearch_eqK, currencyScan_eqK, lineItemsOf_eqK]

/-! ### Scenario / evaluation claims -/

set_option maxHeartbeats 2000000 in
/-- Claim C1: on Scenario A's text the extractor returns `INV-2024-001` for
the Invoice Number field, but for the Total Amount field it stores the
matched keyword `"Total"` (regex group 1) instead of the captured amount
`"$1,234.56"` (group 2): app.py line 115 reads `total_match.group(1)`.  The
same slip affects the Subtotal and Tax fields (lines 98 and 106). -/
theorem scenarioA_total_keyword_stored :
    (extract_invoice_data scenarioAText []).invoiceNumber = some "INV-2024-001".data ∧
    (extract_invoice_data scenarioAText []).totalAmount = some "Total".data := by
  rw [extract_invoice_data_eqK]
  exact ⟨rfl, rfl⟩

set_option maxHeartbeats 2000000 in
/-- Claim C4: the keyword-anchored invoice-date search is nested under
`if dates:` (app.py line 71), so when the external tagger reports no DATE
entities the keyword match is suppressed and the Invoice Date field stays
empty, even though the keyword search succeeds on the text; with a nonempty
tagger report the keyword match wins regardless of its content. -/
theorem invoice_date_gated_by_tagger :
    (reSearch dateGateText dateKwRE).isSome = true ∧
    (extract_invoice_data dateGateText []).invoiceDate = none ∧
    (extract_invoice_data dateGateText ["March 3, 2024".data]).invoiceDate
      = some "01/02/2024".data := by
  refine ⟨?_, ?_, ?_⟩
  · rw [reSearch_eqK]; rfl
  · rw [extract_invoice_data_eqK]; rfl
  · rw [extract_invoice_data_eqK]; rfl

set_option maxHeartbeats 2000000 in
/-- Claim C5: inside a line-item candidate section, the row
`"Widget A   3   $10.00   $30.00"` parses to exactly one line item with
description `Widget A`, quantity `3`, unit price `$10.00`, line total
`$30.00`; the same row with quantity `three` yields no line item at all. -/
theorem lineitem_row_scenarioE :
    lineItemsInSection "Widget A   3   $10.00   $30.00".data
      = [⟨"Widget A".data, some 3, "$10.00".data, "$30.00".data⟩] ∧
    lineItemsInSection "Widget A   three   $10.00   $30.00".data = [] := by
  rw [lineItemsInSection_eqK, lineItemsInSection_eqK]
  exact ⟨rfl, rfl⟩

set_option maxHeartbeats 2000000 in
/-- Claim C7: the date recognizer is purely syntactic: `13/45/2099` (month
13, day 45) is matched by the date pattern and returned unmodified as the
Invoice Date. -/
theorem date_no_calendar_validation :
    (reSearch "13/45/2099".data dateAlts).isSome = true ∧
    (extract_invoice_data badDateText ["2099".data]).invoiceDate
      = some "13/45/2099".data := by
  refine ⟨?_, ?_⟩
  · rw [reSearch_eqK]; rfl
  · rw [extract_invoice_data_eqK]; rfl

set_option maxHeartbeats 2000000 in
/-- Claim C3, counterexample: line-item extraction can emit an item whose
description strips to the empty string.  On `"qty\nA 1 2 3  4 5 6"` the
second row match captures a lone space as the description (the `(.+?)`
capture), which `.strip()` empties, so the claim's "non-empty description"
is false. -/
theorem lineitem_empty_description_ce :
    (⟨[], some 4, ['5'], ['6']⟩ : LineItem)
      ∈ (extract_invoice_data emptyDescText []).lineItems := by
  rw [extract_invoice_data_eqK]
  decide

/-! ### Structurer claims -/

/-- Claim C2: the invoice structurer emits `max 1 (number of line items)`
rows, every row repeats all ten header fields unmodified, and with no line
items the single row has null line-item fields. -/
theorem structure_invoice_rows (d : InvoiceData) :
    (structure_invoice_data_for_excel d).length = max 1 d.lineItems.length ∧
    (∀ row ∈ structure_invoice_data_for_excel d,
      row.invoiceNumber = d.invoiceNumber ∧ row.invoiceDate = d.invoiceDate ∧
      row.vendorName = d.vendorName ∧ row.vendorAddress = d.vendorAddress ∧
      row.customerName = d.customerName ∧ row.customerAddress = d.customerAddress ∧
      row.subtotalAmount = d.subtotalAmount ∧ row.taxAmount = d.taxAmount ∧
      row.totalAmount = d.totalAmount ∧ row.currency = d.currency) ∧
    (d.lineItems = [] →
      structure_invoice_data_for_excel d =
        [⟨d.invoiceNumber, d.invoiceDate, d.vendorName, d.vendorAddress,
          d.customerName, d.customerAddress, d.subtotalAmount, d.taxAmount,
          d.totalAmount, d.currency, none, none, none, none⟩]) := by
  refine ⟨?_, ?_, ?_⟩
  · rw [structure_invoice_data_for_excel]
    rcases h : d.lineItems with _ | ⟨it, rest⟩
    · simp [h]
    · simp [h]
  · intro row hrow
    rw [structure_invoice_data_for_excel] at hrow
    by_cases h : d.lineItems.isEmpty
    · rw [if_pos h] at hrow
      simp only [List.mem_singleton] at hrow
      subst hrow
      exact ⟨rfl, rfl, rfl, rfl, rfl, rfl, rfl, rfl, rfl, rfl⟩
    · rw [if_neg h] at hrow
      rw [List.mem_map] at hrow
      obtain ⟨x, hmem, hx⟩ := hrow
      subst hx
      exact ⟨rfl, rfl, rfl, rfl, rfl, rfl, rfl, rfl, rfl, rfl⟩
  · intro h
    rw [structure_invoice_data_for_excel, h]
    rfl

/-- Claim C2, witness: the theorem applied to a record with no line items. -/
theorem structure_invoice_rows_witness :
    (structure_invoice_data_for_excel
        ⟨some "A1".data, none, none, none, none, none, none, none, none, none, []⟩).length
      = max 1 ([] : List LineItem).length ∧
    structure_invoice_data_for_excel
        ⟨some "A1".data, none, none, none, none, none, none, none, none, none, []⟩
      = [⟨some "A1".data, none, none, none, none, none, none, none, none, none,
          none, none, none, none⟩] :=
  ⟨(structure_invoice_rows _).1,
   (structure_invoice_rows
      ⟨some "A1".data, none, none, none, none, none, none, none, none, none, []⟩).2.2 rfl⟩

/-- Claim C9: the contract structurer returns exactly one row, whose Party
Names string joins the extracted list with `", "` (empty when no parties
were found) and whose remaining fields are copied from the record. -/
theorem structure_contract_single_row (d : ContractData) :
    structure_contract_data_for_excel d =
      [⟨d.contractTitle, joinSep ", ".data d.partyNames, d.effectiveDate,
        d.expirationDate, d.governingLaw, d.paymentTerms, d.terminationClause,
        d.confidentialityClause, d.intellectualPropertyClause,
        d.limitationOfLiabilityClause, d.disputeResolutionClause⟩] ∧
    (structure_contract_data_for_excel d).length = 1 ∧
    (d.partyNames = [] →
      ∀ row ∈ structure_contract_data_for_excel d, row.partyNames = []) := by
  refine ⟨rfl, rfl, ?_⟩
  intro h row hrow
  rw [structure_contract_data_for_excel] at hrow
  simp at hrow
  subst hrow
  simp [h, joinSep]

/-- Claim C9, witness: the theorem applied to a record with two parties and
to one with none. -/
theorem structure_contract_single_row_witness :
    structure_contract_data_for_excel
        ⟨none, ["Acme".data, "Beta".data], none, none, none, none, none, none, none, none, none⟩
      = [⟨none, "Acme, Beta".data, none, none, none, none, none, none, none, none, none⟩] ∧
    (∀ row ∈ structure_contract_data_for_excel
        ⟨none, [], none, none, none, none, none, none, none, none, none⟩,
      row.partyNames = []) :=
  ⟨by
    rw [(structure_contract_single_row
      ⟨none, ["Acme".data, "Beta".data], none, none, none, none, none, none, none, none, none⟩).1]
    rfl,
   (structure_contract_single_row _).2.2 rfl⟩

/-! ### Strip / line lemmas (for claim C10) -/

theorem mem_of_mem_dropWhileWs : ∀ {l : List Char} {x : Char},
    x ∈ l.dropWhile wsChar → x ∈ l := by
  intro l
  induction l with
  | nil => intro x h; exact absurd h (List.not_mem_nil x)
  | cons c t ih =>
    intro x h
    rw [List.dropWhile_cons] at h
    by_cases hc : wsChar c = true
    · rw [if_pos hc] at h
      exact List.mem_cons_of_mem c (ih h)
    · rw [if_neg hc] at h
      exact h

theorem mem_of_mem_dropLead {l : List Char} {x : Char} (h : x ∈ dropLead l) : x ∈ l :=
  mem_of_mem_dropWhileWs h

theorem mem_of_mem_dropEnd {l : List Char} {x : Char} (h : x ∈ dropEnd l) : x ∈ l := by
  rw [dropEnd, List.mem_reverse] at h
  exact (List.mem_reverse).mp (mem_of_mem_dropWhileWs h)

theorem mem_of_mem_pyStrip {l : List Char} {x : Char} (h : x ∈ pyStrip l) : x ∈ l :=
  mem_of_mem_dropLead (mem_of_mem_dropEnd h)

theorem takeWhile_pred {p : Char → Bool} : ∀ {l : List Char} {x : Char},
    x ∈ l.takeWhile p → p x = true := by
  intro l
  induction l with
  | nil => intro x h; exact absurd h (List.not_mem_nil x)
  | cons c t ih =>
    intro x h
    rw [List.takeWhile_cons] at h
    by_cases hc : p c = true
    · rw [if_pos hc] at h
      rcases List.mem_cons.mp h with h1 | h2
      · rw [h1]; exact hc
      · exact ih h2
    · rw [if_neg hc] at h
      exact absurd h (List.not_mem_nil x)

theorem newline_not_mem_lineHead {l : List Char} : '\n' ∉ lineHead l := by
  intro h
  have := takeWhile_pred h
  simp at this

theorem dropLead_idem : ∀ l : List Char, dropLead (dropLead l) = dropLead l := by
  intro l
  induction l with
  | nil => rfl
  | cons c t ih =>
    by_cases hc : wsChar c = true
    · have h2 : dropLead (c :: t) = dropLead t := by
        rw [dropLead, List.dropWhile_cons, if_pos hc]; rfl
      rw [h2]
      exact ih
    · have h1 : dropLead (c :: t) = c :: t := by
        rw [dropLead, List.dropWhile_cons, if_neg hc]
      rw [h1]
      exact h1

theorem dropEnd_eq_reverse : ∀ l : List Char, dropEnd l = (dropLead l.reverse).reverse := by
  intro l; rfl

theorem dropEnd_idem (l : List Char) : dropEnd (dropEnd l) = dropEnd l := by
  rw [dropEnd_eq_reverse, dropEnd_eq_reverse, List.reverse_reverse, dropLead_idem]

theorem dropLead_append_single (c : Char) : ∀ X : List Char,
    dropLead (X ++ [c]) =
      if dropLead X = [] then (if wsChar c then [] else [c]) else dropLead X ++ [c] := by
  intro X
  induction X with
  | nil =>
    show List.dropWhile wsChar [c] = _
    rw [List.dropWhile_cons]
    by_cases hc : wsChar c = true
    · simp [hc, dropLead]
    · simp [hc, dropLead]
  | cons a Y ih =>
    show List.dropWhile wsChar (a :: (Y ++ [c])) = _
    rw [List.dropWhile_cons]
    by_cases ha : wsChar a = true
    · rw [if_pos ha]
      rw [show dropLead (a :: Y) = dropLead Y from by
        rw [dropLead, List.dropWhile_cons, if_pos ha]; rfl]
      exact ih
    · rw [if_neg ha]
      rw [show dropLead (a :: Y) = a :: Y from by
        rw [dropLead, List.dropWhile_cons, if_neg ha]]
      simp

theorem dropEnd_cons (c : Char) (t : List Char) :
    dropEnd (c :: t) =
      if dropEnd t = [] then (if wsChar c then [] else [c]) else c :: dropEnd t := by
  rw [dropEnd_eq_reverse, List.reverse_cons, dropLead_append_single]
  by_cases h : dropEnd t = []
  · have h' : dropLead t.reverse = [] := by
      have := congrArg List.reverse h
      rw [dropEnd_eq_reverse, List.reverse_reverse] at this
      simpa using this
    rw [if_pos h', if_pos h]
    by_cases hc : wsChar c = true <;> simp [hc]
  · have h' : ¬ dropLead t.reverse = [] := by
      intro hx
      apply h
      rw [dropEnd_eq_reverse, hx]
      rfl
    rw [if_neg h', if_neg h, List.reverse_append]
    rw [dropEnd_eq_reverse]
    rfl

theorem dropLead_dropEnd_comm : ∀ l : List Char, dropLead (dropEnd l) = dropEnd (dropLead l) := by
  intro l
  induction l with
  | nil => rfl
  | cons c t ih =>
    rw [dropEnd_cons]
    by_cases hc : wsChar c = true
    · rw [show dropLead (c :: t) = dropLead t from by
        rw [dropLead, List.dropWhile_cons, if_pos hc]; rfl]
      by_cases h : dropEnd t = []
      · rw [if_pos h, if_pos hc]
        rw [← ih, h]
      · rw [if_neg h]
        rw [show dropLead (c :: dropEnd t) = dropLead (dropEnd t) from by
          rw [dropLead, List.dropWhile_cons, if_pos hc]; rfl]
        exact ih
    · rw [show dropLead (c :: t) = c :: t from by
        rw [dropLead, List.dropWhile_cons, if_neg hc]]
      by_cases h : dropEnd t = []
      · rw [if_pos h, if_neg hc, dropEnd_cons, if_pos h, if_neg hc]
        show List.dropWhile wsChar [c] = [c]
        rw [List.dropWhile_cons, if_neg hc]
      · rw [if_neg h, dropEnd_cons, if_neg h]
        rw [show dropLead (c :: dropEnd t) = c :: dropEnd t from by
          rw [dropLead, List.dropWhile_cons, if_neg hc]]

theorem pyStrip_idem (l : List Char) : pyStrip (pyStrip l) = pyStrip l := by
  rw [pyStrip, pyStrip, dropLead_dropEnd_comm, dropEnd_idem, dropLead_idem]

/-- Claim C10: whenever the extractor produces a Vendor Name or a Customer
Name, that value contains no newline (only the remainder of the keyword's
own line is captured, `split('\n')[0]`) and is already stripped of leading
and trailing whitespace. -/
theorem vendor_customer_single_line (text : List Char) (dates : List (List Char))
    (s : List Char)
    (h : (extract_invoice_data text dates).vendorName = some s ∨
         (extract_invoice_data text dates).customerName = some s) :
    '\n' ∉ s ∧ pyStrip s = s := by
  have hv : (extract_invoice_data text dates).vendorName =
      (reSearch text vendorRE).map (fun m => pyStrip (lineHead (grpSlice text m.2.2 2))) := rfl
  have hc : (extract_invoice_data text dates).customerName =
      (reSearch text customerRE).map (fun m => pyStrip (lineHead (grpSlice text m.2.2 2))) := rfl
  have key : ∀ x : List Char, s = pyStrip (lineHead x) → '\n' ∉ s ∧ pyStrip s = s := by
    intro x hs
    constructor
    · intro hmem
      rw [hs] at hmem
      exact newline_not_mem_lineHead (mem_of_mem_pyStrip hmem)
    · rw [hs, pyStrip_idem]
  rcases h with h | h
  · rw [hv, Option.map_eq_some'] at h
    obtain ⟨m, _, hm⟩ := h
    exact key _ hm.symm
  · rw [hc, Option.map_eq_some'] at h
    obtain ⟨m, _, hm⟩ := h
    exact key _ hm.symm

set_option maxHeartbeats 2000000 in
/-- Claim C10, witness: on a text with vendor and customer lines the theorem
applies to the extracted vendor name `"Acme Corp"`. -/
theorem vendor_customer_single_line_witness :
    '\n' ∉ "Acme Corp".data ∧ pyStrip "Acme Corp".data = "Acme Corp".data :=
  vendor_customer_single_line vendorCustomerText [] "Acme Corp".data
    (Or.inl (by rw [extract_invoice_data_eqK]; rfl))

/-! ### Matcher inversion lemmas -/

theorem mem_of_head? {α : Type} {l : List α} {x : α} (h : l.head? = some x) : x ∈ l := by
  cases l with
  | nil => exact absurd h (by simp)
  | cons a t =>
    simp at h
    subst h
    exact List.mem_cons_self a t

theorem runs_zero (inp : List Char) : ∀ (r : RE) (pos : Nat) (caps : Caps),
    runs inp 0 r pos caps = runs1 inp (fun _ _ _ => []) r pos caps := fun _ _ _ => rfl

theorem runs_succ (inp : List Char) (fuel : Nat) : ∀ (r : RE) (pos : Nat) (caps : Caps),
    runs inp (fuel + 1) r pos caps = runs1 inp (runs inp fuel) r pos caps := fun _ _ _ => rfl

theorem mem_runs_eps {inp fuel pos caps e cs} :
    (e, cs) ∈ runs inp fuel RE.eps pos caps ↔ e = pos ∧ cs = caps := by
  cases fuel with
  | zero => simp [runs_zero, runs1]
  | succ f => simp [runs_succ, runs1]

theorem mem_runs1_cls {inp next p pos caps e cs} :
    (e, cs) ∈ runs1 inp next (RE.cls p) pos caps ↔
      e = pos + 1 ∧ cs = caps ∧ ∃ c, inp.get? pos = some c ∧ p c = true := by
  rw [runs1]
  rcases hg : inp.get? pos with _ | c
  · constructor
    · intro h
      exact absurd h (List.not_mem_nil _)
    · rintro ⟨_, _, c, hc, _⟩
      cases hc
  · show (e, cs) ∈ (if p c = true then [(pos + 1, caps)] else []) ↔ _
    by_cases hp : p c = true
    · rw [if_pos hp]
      constructor
      · intro h
        have h2 := List.mem_singleton.mp h
        obtain ⟨h3, h4⟩ := Prod.mk.injEq .. ▸ h2
        exact ⟨h3, h4, c, rfl, hp⟩
      · rintro ⟨he, hcs, _⟩
        rw [he, hcs]
        exact List.mem_singleton.mpr rfl
    · rw [if_neg hp]
      constructor
      · intro h
        exact absurd h (List.not_mem_nil _)
      · rintro ⟨_, _, c2, hc2, hp2⟩
        injection hc2 with hcc
        subst hcc
        exact absurd hp2 hp

theorem mem_runs_cls {inp fuel p pos caps e cs} :
    (e, cs) ∈ runs inp fuel (RE.cls p) pos caps ↔
      e = pos + 1 ∧ cs = caps ∧ ∃ c, inp.get? pos = some c ∧ p c = true := by
  cases fuel with
  | zero => rw [runs_zero]; exact mem_runs1_cls
  | succ f => rw [runs_succ]; exact mem_runs1_cls

theorem mem_runs_seq {inp fuel a b pos caps e cs} :
    (e, cs) ∈ runs inp fuel (RE.seq a b) pos caps ↔
      ∃ p c, (p, c) ∈ runs inp fuel a pos caps ∧ (e, cs) ∈ runs inp fuel b p c := by
  cases fuel with
  | zero => simp [runs_zero, runs1, List.mem_flatMap, Prod.exists]
  | succ f => simp [runs_succ, runs1, List.mem_flatMap, Prod.exists]

theorem mem_runs_alt {inp fuel a b pos caps e cs} :
    (e, cs) ∈ runs inp fuel (RE.alt a b) pos caps ↔
      (e, cs) ∈ runs inp fuel a pos caps ∨ (e, cs) ∈ runs inp fuel b pos caps := by
  cases fuel with
  | zero => simp [runs_zero, runs1]
  | succ f => simp [runs_succ, runs1]

theorem mem_runs_opt {inp fuel a pos caps e cs} :
    (e, cs) ∈ runs inp fuel (RE.opt a) pos caps ↔
      (e, cs) ∈ runs inp fuel a pos caps ∨ (e = pos ∧ cs = caps) := by
  cases fuel with
  | zero => simp [runs_zero, runs1]
  | succ f => simp [runs_succ, runs1]

theorem mem_runs_grp {inp fuel n a pos caps e cs} :
    (e, cs) ∈ runs inp fuel (RE.grp n a) pos caps ↔
      ∃ c, (e, c) ∈ runs inp fuel a pos caps ∧ cs = (n, pos, e) :: c := by
  cases fuel with
  | zero =>
    simp only [runs_zero, runs1, List.mem_map, Prod.exists]
    constructor
    · rintro ⟨p, c, hm, hp⟩
      obtain ⟨h1, h2⟩ := Prod.mk.injEq .. ▸ hp
      exact ⟨c, by rw [← h1]; exact hm, by rw [← h2, ← h1]⟩
    · rintro ⟨c, hm, rfl⟩
      exact ⟨e, c, hm, rfl⟩
  | succ f =>
    simp only [runs_succ, runs1, List.mem_map, Prod.exists]
    constructor
    · rintro ⟨p, c, hm, hp⟩
      obtain ⟨h1, h2⟩ := Prod.mk.injEq .. ▸ hp
      exact ⟨c, by rw [← h1]; exact hm, by rw [← h2, ← h1]⟩
    · rintro ⟨c, hm, rfl⟩
      exact ⟨e, c, hm, rfl⟩

theorem mem_runs_star_zero {inp a pos caps e cs} :
    (e, cs) ∈ runs inp 0 (RE.star a) pos caps ↔ e = pos ∧ cs = caps := by
  simp [runs_zero, runs1, List.mem_flatMap]

theorem mem_runs_star_succ {inp fuel a pos caps e cs} :
    (e, cs) ∈ runs inp (fuel + 1) (RE.star a) pos caps ↔
      (∃ p c, (p, c) ∈ runs inp (fuel + 1) a pos caps ∧ pos < p ∧
        (e, cs) ∈ runs inp fuel (RE.star a) p c) ∨ (e = pos ∧ cs = caps) := by
  rw [runs_succ]
  show (e, cs) ∈ (runs1 inp (runs inp fuel) a pos caps).flatMap _ ++ [(pos, caps)] ↔ _
  rw [List.mem_append]
  simp only [List.mem_flatMap, List.mem_singleton, Prod.mk.injEq, Prod.exists]
  constructor
  · rintro (⟨p, c, hm, hif⟩ | h)
    · by_cases hlt : pos < p
      · rw [if_pos hlt] at hif
        exact Or.inl ⟨p, c, by rw [runs_succ]; exact hm, hlt, hif⟩
      · rw [if_neg hlt] at hif
        exact absurd hif (List.not_mem_nil _)
    · exact Or.inr h
  · rintro (⟨p, c, hm, hlt, hrec⟩ | h)
    · exact Or.inl ⟨p, c, by rw [runs_succ] at hm; exact hm, by rw [if_pos hlt]; exact hrec⟩
    · exact Or.inr h

theorem mem_runs_plusL_succ {inp fuel a pos caps e cs} :
    (e, cs) ∈ runs inp (fuel + 1) (RE.plusL a) pos caps ↔
      ∃ p c, (p, c) ∈ runs inp (fuel + 1) a pos caps ∧
        ((e, cs) = (p, c) ∨ (pos < p ∧ (e, cs) ∈ runs inp fuel (RE.plusL a) p c)) := by
  rw [runs_succ]
  show (e, cs) ∈ (runs1 inp (runs inp fuel) a pos caps).flatMap _ ↔ _
  simp only [List.mem_flatMap, List.mem_cons, Prod.exists]
  constructor
  · rintro ⟨p, c, hm, hcons⟩
    refine ⟨p, c, by rw [runs_succ]; exact hm, ?_⟩
    rcases hcons with h | h
    · exact Or.inl h
    · by_cases hlt : pos < p
      · rw [if_pos hlt] at h
        exact Or.inr ⟨hlt, h⟩
      · rw [if_neg hlt] at h
        exact absurd h (List.not_mem_nil _)
  · rintro ⟨p, c, hm, h⟩
    refine ⟨p, c, by rw [runs_succ] at hm; exact hm, ?_⟩
    rcases h with h | ⟨hlt, h⟩
    · exact Or.inl h
    · exact Or.inr (by rw [if_pos hlt]; exact h)

theorem mem_runs_plusL_zero {inp a pos caps e cs} :
    (e, cs) ∈ runs inp 0 (RE.plusL a) pos caps ↔
      ∃ p c, (p, c) ∈ runs inp 0 a pos caps ∧ (e, cs) = (p, c) := by
  rw [runs_zero]
  show (e, cs) ∈ (runs1 inp (fun _ _ _ => []) a pos caps).flatMap _ ↔ _
  simp only [List.mem_flatMap, List.mem_cons, Prod.exists]
  constructor
  · rintro ⟨p, c, hm, hcons⟩
    rcases hcons with h | h
    · exact ⟨p, c, by rw [runs_zero]; exact hm, h⟩
    · have : (e, cs) ∈ ([] : List (Nat × Caps)) := by
        rcases Nat.lt_or_ge pos p with hlt | hge
        · rw [if_pos hlt] at h; exact h
        · rw [if_neg (Nat.not_lt.mpr hge)] at h; exact h
      exact absurd this (List.not_mem_nil _)
  · rintro ⟨p, c, hm, h⟩
    exact ⟨p, c, by rw [runs_zero] at hm; exact hm, Or.inl h⟩

/-! ### Capture preservation and search soundness -/

theorem runs_nogrp (inp : List Char) : ∀ (fuel : Nat) (r : RE), NoGrp r = true →
    ∀ pos caps e cs, (e, cs) ∈ runs inp fuel r pos caps → cs = caps := by
  intro fuel
  induction fuel with
  | zero =>
    intro r
    induction r with
    | eps => intro _ pos caps e cs h; exact (mem_runs_eps.mp h).2
    | cls p => intro _ pos caps e cs h; exact (mem_runs_cls.mp h).2.1
    | seq a b iha ihb =>
      intro hng pos caps e cs h
      simp only [NoGrp, Bool.and_eq_true] at hng
      obtain ⟨p, c, h1, h2⟩ := mem_runs_seq.mp h
      rw [ihb hng.2 p c e cs h2, iha hng.1 pos caps p c h1]
    | alt a b iha ihb =>
      intro hng pos caps e cs h
      simp only [NoGrp, Bool.and_eq_true] at hng
      rcases mem_runs_alt.mp h with h1 | h2
      · exact iha hng.1 pos caps e cs h1
      · exact ihb hng.2 pos caps e cs h2
    | opt a iha =>
      intro hng pos caps e cs h
      simp only [NoGrp] at hng
      rcases mem_runs_opt.mp h with h1 | ⟨_, h2⟩
      · exact iha hng pos caps e cs h1
      · exact h2
    | grp n a iha =>
      intro hng
      simp only [NoGrp] at hng
      exact absurd hng (by simp)
    | star a iha =>
      intro hng pos caps e cs h
      exact (mem_runs_star_zero.mp h).2
    | plusL a iha =>
      intro hng pos caps e cs h
      simp only [NoGrp] at hng
      obtain ⟨p, c, h1, h2⟩ := mem_runs_plusL_zero.mp h
      have h3 := iha hng pos caps p c h1
      obtain ⟨_, h4⟩ := Prod.mk.injEq .. ▸ h2
      rw [h4, h3]
  | succ fuel ihf =>
    intro r
    induction r with
    | eps => intro _ pos caps e cs h; exact (mem_runs_eps.mp h).2
    | cls p => intro _ pos caps e cs h; exact (mem_runs_cls.mp h).2.1
    | seq a b iha ihb =>
      intro hng pos caps e cs h
      simp only [NoGrp, Bool.and_eq_true] at hng
      obtain ⟨p, c, h1, h2⟩ := mem_runs_seq.mp h
      rw [ihb hng.2 p c e cs h2, iha hng.1 pos caps p c h1]
    | alt a b iha ihb =>
      intro hng pos caps e cs h
      simp only [NoGrp, Bool.and_eq_true] at hng
      rcases mem_runs_alt.mp h with h1 | h2
      · exact iha hng.1 pos caps e cs h1
      · exact ihb hng.2 pos caps e cs h2
    | opt a iha =>
      intro hng pos caps e cs h
      simp only [NoGrp] at hng
      rcases mem_runs_opt.mp h with h1 | ⟨_, h2⟩
      · exact iha hng pos caps e cs h1
      · exact h2
    | grp n a iha =>
      intro hng
      simp only [NoGrp] at hng
      exact absurd hng (by simp)
    | star a iha =>
      intro hng pos caps e cs h
      have hng' : NoGrp a = true := by simpa [NoGrp] using hng
      rcases mem_runs_star_succ.mp h with ⟨p, c, h1, _, h2⟩ | ⟨_, h2⟩
      · have e1 := iha hng' pos caps p c h1
        have e2 := ihf (RE.star a) hng p c e cs h2
        rw [e2, e1]
      · exact h2
    | plusL a iha =>
      intro hng pos caps e cs h
      have hng' : NoGrp a = true := by simpa [NoGrp] using hng
      obtain ⟨p, c, h1, h2⟩ := mem_runs_plusL_succ.mp h
      have e1 := iha hng' pos caps p c h1
      rcases h2 with h3 | ⟨_, h3⟩
      · obtain ⟨_, h4⟩ := Prod.mk.injEq .. ▸ h3
        rw [h4, e1]
      · have e2 := ihf (RE.plusL a) hng p c e cs h3
        rw [e2, e1]

theorem searchAux_sound (inp : List Char) (r : RE) : ∀ (fuel pos s e : Nat) (cs : Caps),
    searchAux inp r fuel pos = some (s, e, cs) →
    (e, cs) ∈ runs inp (inp.length + 1) r s [] := by
  intro fuel
  induction fuel with
  | zero => intro pos s e cs h; simp [searchAux] at h
  | succ fuel ih =>
    intro pos s e cs h
    rw [searchAux] at h
    revert h
    rcases hh : (runs inp (inp.length + 1) r pos []).head? with _ | ec
    · intro h
      exact ih (pos + 1) s e cs h
    · intro h
      injection h with h2
      simp only [Prod.mk.injEq] at h2
      obtain ⟨h3, h4, h5⟩ := h2
      subst h3
      rw [← h4, ← h5]
      exact mem_of_head? hh

theorem reSearch_sound {inp : List Char} {r : RE} {s e : Nat} {cs : Caps}
    (h : reSearch inp r = some (s, e, cs)) :
    (e, cs) ∈ runs inp (inp.length + 1) r s [] := by
  rw [reSearch] at h
  exact searchAux_sound inp r _ 0 s e cs h

theorem finditerAux_sound (inp : List Char) (r : RE) : ∀ (fuel pos : Nat)
    (m : Nat × Nat × Caps), m ∈ finditerAux inp r fuel pos →
    (m.2.1, m.2.2) ∈ runs inp (inp.length + 1) r m.1 [] := by
  intro fuel
  induction fuel with
  | zero => intro pos m h; simp [finditerAux] at h
  | succ fuel ih =>
    intro pos m h
    rw [finditerAux] at h
    revert h
    rcases hs : searchAux inp r (inp.length + 1 - pos) pos with _ | ⟨s, e, cs⟩
    · intro h
      exact absurd h (List.not_mem_nil _)
    · intro h
      rcases List.mem_cons.mp h with h1 | h2
      · subst h1
        exact searchAux_sound inp r _ pos s e cs hs
      · exact ih _ m h2

theorem finditerList_sound {inp : List Char} {r : RE} {m : Nat × Nat × Caps}
    (h : m ∈ finditerList inp r) :
    (m.2.1, m.2.2) ∈ runs inp (inp.length + 1) r m.1 [] := by
  rw [finditerList] at h
  exact finditerAux_sound inp r _ 0 m h

/-! ### Literal and alternation soundness (for claim C6) -/

theorem drop_eq_cons_of_get? {α : Type} : ∀ (l : List α) (n : Nat) (x : α),
    l.get? n = some x → l.drop n = x :: l.drop (n + 1) := by
  intro l
  induction l with
  | nil => intro n x h; simp at h
  | cons a t ih =>
    intro n x h
    cases n with
    | zero =>
      simp at h
      subst h
      rfl
    | succ n =>
      show t.drop n = x :: t.drop (n + 1)
      exact ih n x (by simpa using h)

theorem runs_litCI_sound (inp : List Char) : ∀ (kw : List Char) (fuel pos : Nat)
    (caps : Caps) (e : Nat) (cs : Caps),
    (e, cs) ∈ runs inp fuel (litCI kw) pos caps → ciStarts kw (inp.drop pos) = true := by
  intro kw
  induction kw with
  | nil => intro fuel pos caps e cs _; rfl
  | cons k ks ih =>
    intro fuel pos caps e cs h
    rw [litCI] at h
    obtain ⟨p, c, h1, h2⟩ := mem_runs_seq.mp h
    rw [ciCls] at h1
    obtain ⟨hp, _, ch, hget, hch⟩ := mem_runs_cls.mp h1
    rw [drop_eq_cons_of_get? inp pos ch hget, ciStarts, Bool.and_eq_true]
    subst hp
    exact ⟨hch, ih fuel (pos + 1) c e cs h2⟩

theorem mem_runs_altL (inp : List Char) : ∀ (rs : List RE) (fuel pos : Nat)
    (caps : Caps) (e : Nat) (cs : Caps),
    (e, cs) ∈ runs inp fuel (altL rs) pos caps →
    ∃ r ∈ rs, (e, cs) ∈ runs inp fuel r pos caps := by
  intro rs
  induction rs with
  | nil =>
    intro fuel pos caps e cs h
    rw [altL] at h
    obtain ⟨_, _, c, _, hfalse⟩ := mem_runs_cls.mp h
    exact Bool.noConfusion hfalse
  | cons r rest ih =>
    intro fuel pos caps e cs h
    rw [altL] at h
    rcases mem_runs_alt.mp h with h1 | h2
    · exact ⟨r, List.mem_cons_self .., h1⟩
    · obtain ⟨r2, hmem, hr2⟩ := ih fuel pos caps e cs h2
      exact ⟨r2, List.mem_cons_of_mem _ hmem, hr2⟩

theorem substrCI_of_ciStarts {kw l : List Char} {s : Nat}
    (h : ciStarts kw (l.drop s) = true) : substrCI kw l = true := by
  rw [substrCI, List.any_eq_true]
  by_cases hs : s ≤ l.length
  · exact ⟨s, List.mem_range.mpr (Nat.lt_succ_of_le hs), h⟩
  · refine ⟨l.length, List.mem_range.mpr (Nat.lt_succ_self _), ?_⟩
    have h1 : l.drop s = [] := by
      rw [List.drop_eq_nil_iff]
      omega
    rw [List.drop_length]
    rw [h1] at h
    cases kw with
    | nil => rfl
    | cons k ks => exact Bool.noConfusion h

theorem hasHeaderKw_sound (line : List Char) (h : hasHeaderKw line = true) :
    ∃ kw ∈ headerKeywords, substrCI kw line = true := by
  rw [hasHeaderKw] at h
  rcases hr : reSearch line headerKwRE with _ | m
  · rw [hr] at h
    cases h
  · obtain ⟨s, e, cs⟩ := m
    have hmem := reSearch_sound hr
    rw [headerKwRE] at hmem
    obtain ⟨c, hm2, _⟩ := mem_runs_grp.mp hmem
    rw [kwAlts] at hm2
    obtain ⟨r2, hr2, hm3⟩ := mem_runs_altL line _ _ _ _ _ _ hm2
    rw [List.mem_map] at hr2
    obtain ⟨kw, hkw, hlit⟩ := hr2
    subst hlit
    exact ⟨kw, hkw, substrCI_of_ciStarts (runs_litCI_sound line kw _ s _ _ _ hm3)⟩

/-- Claim C6: if no line of the input mentions any of the eight column-header
words (case-insensitively, as a substring), line-item extraction returns the
empty sequence — and, being a total function, raises no error. -/
theorem no_header_keyword_no_lineitems (text : List Char) (dates : List (List Char))
    (h : ∀ line ∈ splitNl text, ∀ kw ∈ headerKeywords, substrCI kw line = false) :
    (extract_invoice_data text dates).lineItems = [] := by
  have hitems : (extract_invoice_data text dates).lineItems = lineItemsOf text := rfl
  rw [hitems, lineItemsOf]
  have hidx : ∀ lines : List (List Char),
      (∀ line ∈ lines, ∀ kw ∈ headerKeywords, substrCI kw line = false) →
      firstHeaderIdx? lines = none := by
    intro lines
    induction lines with
    | nil => intro _; rfl
    | cons l rest ih =>
      intro hl
      rw [firstHeaderIdx?]
      have hfalse : hasHeaderKw l = false := by
        cases hhh : hasHeaderKw l
        · rfl
        · obtain ⟨kw, hkw, hsub⟩ := hasHeaderKw_sound l hhh
          have hcontra := hl l (List.mem_cons_self ..) kw hkw
          rw [hcontra] at hsub
          exact Bool.noConfusion hsub
      rw [hfalse]
      rw [ih (fun line hm => hl line (List.mem_cons_of_mem _ hm))]
      rfl
  rw [sectionOf, hidx (splitNl text) h]
  rfl

set_option maxHeartbeats 2000000 in
/-- Claim C6, witness: on `"hello\nworld"` no line contains a header word and
the extractor emits no line items. -/
theorem no_header_keyword_no_lineitems_witness :
    (∀ line ∈ splitNl noHeaderText, ∀ kw ∈ headerKeywords, substrCI kw line = false) ∧
    (extract_invoice_data noHeaderText []).lineItems = [] :=
  ⟨by decide, no_header_keyword_no_lineitems noHeaderText [] (by decide)⟩

/-! ### Currency characterization (for claim C8) -/

theorem get?_some_lt {α : Type} : ∀ (l : List α) (n : Nat) (x : α),
    l.get? n = some x → n < l.length := by
  intro l
  induction l with
  | nil => intro n x h; simp at h
  | cons a t ih =>
    intro n x h
    cases n with
    | zero => simp
    | succ n =>
      have := ih n x (by simpa using h)
      simp [List.length_cons]
      omega

theorem runs_grp_val (inp : List Char) (fuel n : Nat) (a : RE) (pos : Nat) (caps : Caps) :
    runs inp fuel (RE.grp n a) pos caps =
      (runs inp fuel a pos caps).map (fun pc => (pc.1, (n, pos, pc.1) :: pc.2)) := by
  cases fuel <;> rfl

theorem runs_cls_val (inp : List Char) (fuel : Nat) (p : Char → Bool) (pos : Nat) (caps : Caps) :
    runs inp fuel (RE.cls p) pos caps =
      (match inp.get? pos with
       | some c => if p c then [(pos + 1, caps)] else []
       | none => []) := by
  cases fuel <;> rfl

theorem runs_cls_val_some (inp : List Char) (fuel : Nat) (p : Char → Bool) (pos : Nat)
    (caps : Caps) (c : Char) (hg : inp.get? pos = some c) :
    runs inp fuel (RE.cls p) pos caps = if p c then [(pos + 1, caps)] else [] := by
  rw [runs_cls_val, hg]

theorem runs_cls_val_none (inp : List Char) (fuel : Nat) (p : Char → Bool) (pos : Nat)
    (caps : Caps) (hg : inp.get? pos = none) :
    runs inp fuel (RE.cls p) pos caps = [] := by
  rw [runs_cls_val, hg]

theorem searchAux_cur (inp : List Char) : ∀ (fuel pos : Nat),
    inp.length + 1 - pos ≤ fuel →
    (searchAux inp curRE fuel pos).map (fun m => grpSlice inp m.2.2 1)
      = ((inp.drop pos).find? isCur).map (fun c => [c]) := by
  intro fuel
  induction fuel with
  | zero =>
    intro pos hb
    have hdrop : inp.drop pos = [] := by
      rw [List.drop_eq_nil_iff]
      omega
    rw [hdrop]
    rfl
  | succ fuel ih =>
    intro pos hb
    rw [searchAux]
    rcases hg : inp.get? pos with _ | c
    · have hpos : inp.length ≤ pos := by
        by_contra hcon
        rcases List.get?_eq_get (Nat.lt_of_not_le hcon) with h2
        rw [hg] at h2
        cases h2
      have hdrop : inp.drop pos = [] := by
        rw [List.drop_eq_nil_iff]
        omega
      have hdrop1 : inp.drop (pos + 1) = [] := by
        rw [List.drop_eq_nil_iff]
        omega
      rw [curRE, runs_grp_val, runs_cls_val_none inp _ isCur pos [] hg]
      show (searchAux inp curRE fuel (pos + 1)).map (fun m => grpSlice inp m.2.2 1) = _
      rw [ih (pos + 1) (by omega), hdrop, hdrop1]
    · have hlt : pos < inp.length := get?_some_lt inp pos c hg
      have hdrop := drop_eq_cons_of_get? inp pos c hg
      rw [curRE, runs_grp_val, runs_cls_val_some inp _ isCur pos [] c hg]
      by_cases hp : isCur c = true
      · rw [if_pos hp]
        show some (grpSlice inp [(1, pos, pos + 1)] 1) = _
        rw [hdrop, List.find?_cons_of_pos _ hp]
        show some (spanSlice inp pos (pos + 1)) = some [c]
        rw [spanSlice, hdrop]
        norm_num
      · rw [if_neg hp]
        show (searchAux inp curRE fuel (pos + 1)).map (fun m => grpSlice inp m.2.2 1) = _
        rw [ih (pos + 1) (by omega), hdrop, List.find?_cons_of_neg _ hp]

theorem currencyScan_find (text : List Char) :
    currencyScan text = (text.find? isCur).map (fun c => [c]) := by
  rw [currencyScan, reSearch]
  have h := searchAux_cur text (text.length + 1) 0 (by omega)
  rw [List.drop_zero] at h
  exact h

theorem mem_text_of_mem_grpSlice {text : List Char} {cs : Caps} {n : Nat} {x : Char}
    (hx : x ∈ grpSlice text cs n) : x ∈ text := by
  rw [grpSlice] at hx
  rcases h : capLookup cs n with _ | ⟨s, e⟩
  · rw [h] at hx
    exact absurd hx (List.not_mem_nil _)
  · rw [h] at hx
    exact List.drop_subset s text (List.take_subset _ _ hx)

theorem backfill_keeps (text : List Char) (o : Option (List Char))
    (ho : o = (text.find? isCur).map (fun c => [c])) (cs : Caps) (n : Nat) :
    backfillCurrency o (grpSlice text cs n) = o := by
  rcases hf : text.find? isCur with _ | c
  · rw [ho, hf]
    show backfillCurrency none _ = none
    rw [backfillCurrency]
    have hnone : (grpSlice text cs n).find? isCur = none := by
      rw [List.find?_eq_none]
      intro x hx
      have hx2 : x ∈ text := mem_text_of_mem_grpSlice hx
      have := List.find?_eq_none.mp hf x hx2
      exact this
    rw [hnone]
  · rw [ho, hf]
    rfl

/-- Claim C8: the extracted Currency field is exactly the first occurrence of
one of `$`, `£`, `€` anywhere in the text (absent when no symbol occurs); the
three backfill branches never change it, because the `group(1)` they inspect
is a slice of the text, which holds no symbol whenever the global scan found
none. -/
theorem currency_first_symbol (text : List Char) (dates : List (List Char)) :
    (extract_invoice_data text dates).currency
      = (text.find? isCur).map (fun c => [c]) := by
  have hrec : (extract_invoice_data text dates).currency =
      (match reSearch text totalRE with
       | some m => backfillCurrency
           (match reSearch text taxRE with
            | some m2 => backfillCurrency
                (match reSearch text subtotalRE with
                 | some m3 => backfillCurrency (currencyScan text) (grpSlice text m3.2.2 1)
                 | none => currencyScan text)
                (grpSlice text m2.2.2 1)
            | none =>
                match reSearch text subtotalRE with
                | some m3 => backfillCurrency (currencyScan text) (grpSlice text m3.2.2 1)
                | none => currencyScan text)
           (grpSlice text m.2.2 1)
       | none =>
           match reSearch text taxRE with
           | some m2 => backfillCurrency
               (match reSearch text subtotalRE with
                | some m3 => backfillCurrency (currencyScan text) (grpSlice text m3.2.2 1)
                | none => currencyScan text)
               (grpSlice text m2.2.2 1)
           | none =>
               match reSearch text subtotalRE with
               | some m3 => backfillCurrency (currencyScan text) (grpSlice text m3.2.2 1)
               | none => currencyScan text) := rfl
  rw [hrec]
  have step : ∀ (res : Option (Nat × Nat × Caps)) (o : Option (List Char)),
      o = (text.find? isCur).map (fun c => [c]) →
      (match res with
       | some m => backfillCurrency o (grpSlice text m.2.2 1)
       | none => o) = (text.find? isCur).map (fun c => [c]) := by
    intro res o ho
    rcases res with _ | m
    · exact ho
    · show backfillCurrency o (grpSlice text m.2.2 1) = _
      rw [backfill_keeps text o ho m.2.2 1]
      exact ho
  exact step _ _ (step _ _ (step _ _ (currencyScan_find text)))

/-! ### Digit-run and slice lemmas (for claim C3) -/

theorem runs_star_cls (inp : List Char) (p : Char → Bool) : ∀ (fuel pos : Nat) (caps : Caps)
    (e : Nat) (cs : Caps), (e, cs) ∈ runs inp fuel (RE.star (RE.cls p)) pos caps →
    pos ≤ e ∧ ∀ i, pos ≤ i → i < e → ∃ c, inp.get? i = some c ∧ p c = true := by
  intro fuel
  induction fuel with
  | zero =>
    intro pos caps e cs h
    obtain ⟨he, _⟩ := mem_runs_star_zero.mp h
    subst he
    exact ⟨Nat.le_refl _, fun i h1 h2 => absurd (Nat.lt_of_le_of_lt h1 h2) (Nat.lt_irrefl _)⟩
  | succ fuel ih =>
    intro pos caps e cs h
    rcases mem_runs_star_succ.mp h with ⟨q, c, h1, hlt, h2⟩ | ⟨he, _⟩
    · obtain ⟨hq, _, ch, hget, hch⟩ := mem_runs_cls.mp h1
      subst hq
      obtain ⟨hle, hall⟩ := ih (pos + 1) c e cs h2
      refine ⟨Nat.le_trans (Nat.le_succ pos) hle, ?_⟩
      intro i hi1 hi2
      rcases Nat.eq_or_lt_of_le hi1 with heq | hlt2
      · subst heq
        exact ⟨ch, hget, hch⟩
      · exact hall i hlt2 hi2
    · subst he
      exact ⟨Nat.le_refl _, fun i h1 h2 => absurd (Nat.lt_of_le_of_lt h1 h2) (Nat.lt_irrefl _)⟩

theorem runs_digPlus (inp : List Char) {fuel pos : Nat} {caps : Caps} {e : Nat} {cs : Caps}
    (h : (e, cs) ∈ runs inp fuel digPlus pos caps) :
    pos < e ∧ ∀ i, pos ≤ i → i < e → ∃ c, inp.get? i = some c ∧ c.isDigit = true := by
  rw [digPlus, plusG] at h
  obtain ⟨q, c, h1, h2⟩ := mem_runs_seq.mp h
  rw [digCls] at h1 h2
  obtain ⟨hq, _, ch, hget, hch⟩ := mem_runs_cls.mp h1
  subst hq
  obtain ⟨hle, hall⟩ := runs_star_cls inp Char.isDigit fuel (pos + 1) c e cs h2
  refine ⟨Nat.lt_of_lt_of_le (Nat.lt_succ_self pos) hle, ?_⟩
  intro i hi1 hi2
  rcases Nat.eq_or_lt_of_le hi1 with heq | hlt2
  · subst heq
    exact ⟨ch, hget, hch⟩
  · exact hall i hlt2 hi2

theorem get?_drop {α : Type} : ∀ (l : List α) (n j : Nat),
    (l.drop n).get? j = l.get? (n + j) := by
  intro l
  induction l with
  | nil => intro n j; simp
  | cons a t ih =>
    intro n j
    cases n with
    | zero => simp
    | succ n =>
      show (t.drop n).get? j = (a :: t).get? (n + 1 + j)
      rw [ih n j]
      have : n + 1 + j = (n + j) + 1 := by omega
      rw [this]
      rfl

theorem get?_take {α : Type} : ∀ (l : List α) (n j : Nat), j < n →
    (l.take n).get? j = l.get? j := by
  intro l
  induction l with
  | nil => intro n j _; simp
  | cons a t ih =>
    intro n j hj
    cases n with
    | zero => exact absurd hj (Nat.not_lt_zero j)
    | succ n =>
      cases j with
      | zero => rfl
      | succ j =>
        show (t.take n).get? j = t.get? j
        exact ih n j (Nat.lt_of_succ_lt_succ hj)

theorem mem_get? {α : Type} : ∀ {l : List α} {x : α}, x ∈ l → ∃ n, l.get? n = some x := by
  intro l
  induction l with
  | nil => intro x h; exact absurd h (List.not_mem_nil x)
  | cons a t ih =>
    intro x h
    rcases List.mem_cons.mp h with h1 | h2
    · exact ⟨0, by rw [h1]; rfl⟩
    · obtain ⟨n, hn⟩ := ih h2
      exact ⟨n + 1, hn⟩

theorem spanSlice_all {inp : List Char} {s e : Nat} {p : Char → Bool}
    (hall : ∀ i, s ≤ i → i < e → ∃ c, inp.get? i = some c ∧ p c = true) :
    ∀ x ∈ spanSlice inp s e, p x = true := by
  intro x hx
  obtain ⟨j, hj⟩ := mem_get? hx
  have hjlen := get?_some_lt _ j x hj
  rw [spanSlice] at hj hjlen
  rw [List.length_take] at hjlen
  have hje : j < e - s := Nat.lt_of_lt_of_le hjlen (Nat.min_le_left _ _)
  rw [get?_take _ _ _ hje, get?_drop] at hj
  obtain ⟨c, hc1, hc2⟩ := hall (s + j) (Nat.le_add_right s j) (by omega)
  rw [hj] at hc1
  injection hc1 with hcc
  rw [hcc]
  exact hc2

theorem spanSlice_ne_nil {inp : List Char} {s e : Nat} (hse : s < e) (hs : s < inp.length) :
    spanSlice inp s e ≠ [] := by
  intro hnil
  have := congrArg List.length hnil
  rw [spanSlice, List.length_take, List.length_drop] at this
  simp at this
  omega

theorem digit_not_ws {c : Char} (h : c.isDigit = true) : wsChar c = false := by
  rcases hc : wsChar c with _ | _
  · rfl
  · exfalso
    rw [wsChar] at hc
    simp only [Bool.or_eq_true, beq_iff_eq] at hc
    rcases hc with ((((h1 | h1) | h1) | h1) | h1) | h1 <;>
      (subst h1; exact absurd h (by decide))

theorem dropLead_of_no_ws {l : List Char} (h : ∀ c ∈ l, wsChar c = false) :
    dropLead l = l := by
  cases l with
  | nil => rfl
  | cons c t =>
    rw [dropLead, List.dropWhile_cons, if_neg]
    rw [h c (List.mem_cons_self ..)]
    simp

theorem dropEnd_of_no_ws {l : List Char} (h : ∀ c ∈ l, wsChar c = false) :
    dropEnd l = l := by
  rw [dropEnd_eq_reverse, dropLead_of_no_ws, List.reverse_reverse]
  intro c hc
  exact h c (List.mem_reverse.mp hc)

theorem pyStrip_of_no_ws {l : List Char} (h : ∀ c ∈ l, wsChar c = false) :
    pyStrip l = l := by
  rw [pyStrip, dropLead_of_no_ws h, dropEnd_of_no_ws h]

theorem pyInt_isSome_of_digits {l : List Char} (hne : l ≠ [])
    (hdig : ∀ c ∈ l, c.isDigit = true) : (pyInt l).isSome = true := by
  cases l with
  | nil => exact absurd rfl hne
  | cons c t =>
    have hc := hdig c (List.mem_cons_self ..)
    have hplus : ¬ (c :: t).head? = some '+' := by
      simp only [List.head?_cons, Option.some.injEq]
      intro hcc
      subst hcc
      exact absurd hc (by decide)
    have hminus : ¬ (c :: t).head? = some '-' := by
      simp only [List.head?_cons, Option.some.injEq]
      intro hcc
      subst hcc
      exact absurd hc (by decide)
    rw [pyInt, if_neg hplus, if_neg hminus]
    have hval : (natVal? (c :: t)).isSome = true := by
      rw [natVal?, if_pos]
      · rfl
      · rw [Bool.and_eq_true]
        constructor
        · rw [List.all_eq_true]
          exact hdig
        · simp
    rcases hv : natVal? (c :: t) with _ | n
    · rw [hv] at hval
      cases hval
    · rfl

/-! ### Row-match destructuring and the line-item well-formedness claim -/

theorem lineItemRE_shape {inp : List Char} {fuel pos : Nat} {caps0 : Caps} {e : Nat}
    {cs : Caps} (h : (e, cs) ∈ runs inp fuel lineItemRE pos caps0) :
    ∃ p1 p2 p3 p4 p5 p6,
      cs = (4, p6, e) :: (3, p4, p5) :: (2, p2, p3) :: (1, pos, p1) :: caps0 ∧
      (p2 < p3 ∧ ∀ i, p2 ≤ i → i < p3 → ∃ c, inp.get? i = some c ∧ c.isDigit = true) ∧
      AmountAt inp p4 p5 ∧ AmountAt inp p6 e := by
  rw [lineItemRE] at h
  obtain ⟨p1, c1, hg1, h⟩ := mem_runs_seq.mp h
  obtain ⟨c1', hplus, hc1⟩ := mem_runs_grp.mp hg1
  have hc1e : c1' = caps0 :=
    runs_nogrp inp fuel (RE.plusL anyCh) (by rfl) pos caps0 p1 c1' hplus
  rw [hc1e] at hc1
  subst hc1
  obtain ⟨p2, c2, hws1, h⟩ := mem_runs_seq.mp h
  have hc2 : c2 = (1, pos, p1) :: caps0 :=
    runs_nogrp inp fuel wsPlus (by rfl) p1 _ p2 c2 hws1
  subst hc2
  obtain ⟨p3, c3, hg2, h⟩ := mem_runs_seq.mp h
  obtain ⟨c3', hdig, hc3⟩ := mem_runs_grp.mp hg2
  have hc3e : c3' = (1, pos, p1) :: caps0 :=
    runs_nogrp inp fuel digPlus (by rfl) p2 _ p3 c3' hdig
  subst hc3e
  subst hc3
  have hdigits := runs_digPlus inp hdig
  obtain ⟨p4, c4, hws2, h⟩ := mem_runs_seq.mp h
  have hc4 : c4 = (2, p2, p3) :: (1, pos, p1) :: caps0 :=
    runs_nogrp inp fuel wsPlus (by rfl) p3 _ p4 c4 hws2
  subst hc4
  obtain ⟨p5, c5, hg3, h⟩ := mem_runs_seq.mp h
  obtain ⟨c5', ham1, hc5⟩ := mem_runs_grp.mp hg3
  have hc5e : c5' = (2, p2, p3) :: (1, pos, p1) :: caps0 :=
    runs_nogrp inp fuel amountCore (by rfl) p4 _ p5 c5' ham1
  subst hc5e
  subst hc5
  obtain ⟨p6, c6, hws3, h⟩ := mem_runs_seq.mp h
  have hc6 : c6 = (3, p4, p5) :: (2, p2, p3) :: (1, pos, p1) :: caps0 :=
    runs_nogrp inp fuel wsPlus (by rfl) p5 _ p6 c6 hws3
  subst hc6
  obtain ⟨c7, ham2, hcs⟩ := mem_runs_grp.mp h
  have hc7 : c7 = (3, p4, p5) :: (2, p2, p3) :: (1, pos, p1) :: caps0 :=
    runs_nogrp inp fuel amountCore (by rfl) p6 _ e c7 ham2
  subst hc7
  exact ⟨p1, p2, p3, p4, p5, p6, hcs, hdigits, ⟨fuel, _, _, ham1⟩, ⟨fuel, _, _, ham2⟩⟩

/-- Claim C3 (amended): every line item emitted by line-item extraction has
all four fields present and non-null — the quantity capture is a nonempty
digit run, so Python's `int(...)` always succeeds, and the unit price and
line total are trimmed amount-pattern matches taken from the located
candidate section.  (The original claim's "non-empty description" is false:
see the counterexample — the description capture may strip to the empty
string.) -/
theorem lineitems_wellformed (text : List Char) (dates : List (List Char)) (it : LineItem)
    (h : it ∈ (extract_invoice_data text dates).lineItems) :
    it.quantity.isSome = true ∧
    ∃ sec, sectionOf text = some sec ∧
      (∃ s e, AmountAt sec s e ∧ it.unitPrice = pyStrip (spanSlice sec s e)) ∧
      (∃ s e, AmountAt sec s e ∧ it.lineItemTotal = pyStrip (spanSlice sec s e)) := by
  have hl : (extract_invoice_data text dates).lineItems = lineItemsOf text := rfl
  rw [hl, lineItemsOf] at h
  revert h
  rcases hsec : sectionOf text with _ | sec
  · intro h
    exact absurd h (List.not_mem_nil _)
  · intro h
    have h2 : it ∈ (finditerList sec lineItemRE).map (buildItem sec) := h
    rw [List.mem_map] at h2
    obtain ⟨m, hm, hbuild⟩ := h2
    have hrun := finditerList_sound hm
    obtain ⟨p1, p2, p3, p4, p5, p6, hcs, ⟨hqlt, hqdig⟩, ham1, ham2⟩ := lineItemRE_shape hrun
    have hsl2 : grpSlice sec m.2.2 2 = spanSlice sec p2 p3 := by rw [hcs]; rfl
    have hsl3 : grpSlice sec m.2.2 3 = spanSlice sec p4 p5 := by rw [hcs]; rfl
    have hsl4 : grpSlice sec m.2.2 4 = spanSlice sec p6 m.2.1 := by rw [hcs]; rfl
    subst hbuild
    constructor
    · show (pyInt (pyStrip (grpSlice sec m.2.2 2))).isSome = true
      rw [hsl2]
      have hdigall : ∀ x ∈ spanSlice sec p2 p3, x.isDigit = true := spanSlice_all hqdig
      have hnows : ∀ x ∈ spanSlice sec p2 p3, wsChar x = false :=
        fun x hx => digit_not_ws (hdigall x hx)
      rw [pyStrip_of_no_ws hnows]
      apply pyInt_isSome_of_digits
      · apply spanSlice_ne_nil hqlt
        obtain ⟨c, hc, _⟩ := hqdig p2 (Nat.le_refl _) hqlt
        exact get?_some_lt _ _ _ hc
      · exact hdigall
    · refine ⟨sec, rfl, ⟨p4, p5, ham1, ?_⟩, ⟨p6, m.2.1, ham2, ?_⟩⟩
      · show pyStrip (grpSlice sec m.2.2 3) = pyStrip (spanSlice sec p4 p5)
        rw [hsl3]
      · show pyStrip (grpSlice sec m.2.2 4) = pyStrip (spanSlice sec p6 m.2.1)
        rw [hsl4]

set_option maxHeartbeats 2000000 in
/-- Claim C3 (amended), witness: the theorem applied to the single item
extracted from `"qty\nA 1 2 3"`. -/
theorem lineitems_wellformed_witness :
    (⟨"qty\nA".data, some 1, ['2'], ['3']⟩ : LineItem).quantity.isSome = true ∧
    ∃ sec, sectionOf oneRowText = some sec ∧
      (∃ s e, AmountAt sec s e ∧
        (⟨"qty\nA".data, some 1, ['2'], ['3']⟩ : LineItem).unitPrice
          = pyStrip (spanSlice sec s e)) ∧
      (∃ s e, AmountAt sec s e ∧
        (⟨"qty\nA".data, some 1, ['2'], ['3']⟩ : LineItem).lineItemTotal
          = pyStrip (spanSlice sec s e)) :=
  lineitems_wellformed oneRowText [] _ (by rw [extract_invoice_data_eqK]; decide)
